import Mathlib

/-!
Shallow embedding of the repository-access gate of this server
(package `access`: `normalizeRepositoryURL`, `isValidRepoPath`,
`Validator` with `Initialize` / `IsRepositoryAccessible` /
`GetAccessibleRepositories` / `fetchAccessibleRepositories`,
`GetAllAccessibleRepos`), and of the gated MCP tool handlers
(`GetFileContentsWithValidation`, `GetCommitWithValidation`,
`ListCommitsWithValidation`, `ListBranchesWithValidation`,
`CreateBranchWithValidation`).

Strings are embedded as `List Char` (`GoStr`), with the Go `strings`
package operations the source uses re-implemented structurally so that
every definition evaluates inside the kernel.
-/

namespace GhMcp

instance {ε α : Type} [DecidableEq ε] [DecidableEq α] : DecidableEq (Except ε α) := fun x y =>
  match x, y with
  | .error a, .error b =>
    if h : a = b then .isTrue (by rw [h]) else .isFalse (by simp [h])
  | .ok a, .ok b =>
    if h : a = b then .isTrue (by rw [h]) else .isFalse (by simp [h])
  | .error _, .ok _ => .isFalse (by simp)
  | .ok _, .error _ => .isFalse (by simp)

/-- Go strings, embedded as lists of characters. -/
abbrev GoStr := List Char

/-- A Lean string literal as a `GoStr`. -/
def gs (s : String) : GoStr := s.data

/-- Go `strings.HasPrefix s p`. -/
def hasPre : GoStr → GoStr → Bool
  | _, [] => true
  | [], _ :: _ => false
  | c :: s, d :: p => c == d && hasPre s p

/-- Go `strings.HasSuffix s p`. -/
def hasSuf (s p : GoStr) : Bool := hasPre s.reverse p.reverse

/-- Go `strings.TrimPrefix s p`: drop one leading occurrence of `p` if present. -/
def trimPre (s p : GoStr) : GoStr := if hasPre s p then s.drop p.length else s

/-- Go `strings.TrimSuffix s p`: drop one trailing occurrence of `p` if present. -/
def trimSuf (s p : GoStr) : GoStr :=
  if hasSuf s p then s.take (s.length - p.length) else s

/-- Go `strings.Count s sep` for a one-character separator. -/
def countChar (c : Char) (s : GoStr) : Nat := s.count c

/-- Go `strings.Split s sep` for a one-character separator: on the empty
string it yields `[""]`, and separators at the ends yield empty fields,
exactly as in Go. -/
def splitChar (c : Char) : GoStr → List GoStr
  | [] => [[]]
  | x :: xs =>
    if x == c then [] :: splitChar c xs
    else
      match splitChar c xs with
      | [] => [[x]]
      | h :: t => (x :: h) :: t

/-- Go `strings.Join parts sep` for a one-character separator. -/
def joinChar (c : Char) : List GoStr → GoStr
  | [] => []
  | [x] => x
  | x :: y :: xs => x ++ c :: joinChar c (y :: xs)

/-- Model of Go `net/url.Parse` applied to what follows the `http://` or
`https://` scheme: the host is the text up to the first slash, the path is
the rest (with its leading slash). Query, fragment, userinfo, port
splitting and parse failures are not modelled; Go's parser preserves the
letter case of the host, and so does this model. -/
def urlHostPath (rest : GoStr) : GoStr × GoStr :=
  match splitChar '/' rest with
  | [] => (rest, [])
  | [h] => (h, [])
  | h :: t => (h, '/' :: joinChar '/' t)

/-- `isValidRepoPath` from the access package: the path must split on `/`
into exactly two non-empty segments. -/
def isValidRepoPath (path : GoStr) : Bool :=
  if path == [] then false
  else
    match splitChar '/' path with
    | [owner, repo] => owner != [] && repo != []
    | _ => false

/-- `normalizeRepositoryURL` from the access package: canonicalizes a raw
repository reference to `github.com/owner/repo`, or fails. The four
branches (scheme-carrying URL, `github.com/` prefix, bare `owner/repo`
with exactly one slash, everything else) mirror the source in order. -/
def normalizeRepositoryURL (repoURL : GoStr) : Except GoStr GoStr :=
  if repoURL == [] then .error (gs "repository URL cannot be empty")
  else if hasPre repoURL (gs "http://") || hasPre repoURL (gs "https://") then
    let rest := if hasPre repoURL (gs "https://") then repoURL.drop 8 else repoURL.drop 7
    let hp := urlHostPath rest
    if hp.1 != gs "github.com" then
      .error (gs "unsupported repository URL format: " ++ repoURL)
    else
      let path := trimSuf (trimPre hp.2 (gs "/")) (gs ".git")
      if isValidRepoPath path then .ok (gs "github.com/" ++ path)
      else .error (gs "unsupported repository URL format: " ++ repoURL)
  else if hasPre repoURL (gs "github.com/") then
    let path := trimSuf (trimPre repoURL (gs "github.com/")) (gs ".git")
    if isValidRepoPath path then .ok (gs "github.com/" ++ path)
    else .error (gs "unsupported repository URL format: " ++ repoURL)
  else if countChar '/' repoURL == 1 then
    let path := trimSuf repoURL (gs ".git")
    if isValidRepoPath path then .ok (gs "github.com/" ++ path)
    else .error (gs "unsupported repository URL format: " ++ repoURL)
  else .error (gs "unsupported repository URL format: " ++ repoURL)

/-- One node of the identity graph service's `Traverse` answer
(`res.Output` in `GetAllAccessibleRepos`): its property map. -/
structure GraphNode where
  properties : List (GoStr × GoStr)
deriving DecidableEq

/-- Go map lookup `properties[key]`. -/
def getProp (props : List (GoStr × GoStr)) (key : GoStr) : Option GoStr :=
  match props.find? (fun p => p.1 == key) with
  | some p => some p.2
  | none => none

/-- The `repository` struct of the access package. -/
structure Repository where
  repo : GoStr
  org : GoStr
deriving DecidableEq

/-- The loop local `org` of `GetAllAccessibleRepos`: the node's `org`
property, or the empty string when absent. -/
def nodeOrg (n : GraphNode) : GoStr := (getProp n.properties (gs "org")).getD []

/-- The loop local `repo` of `GetAllAccessibleRepos`: the node's `name`
property, or the empty string when absent. -/
def nodeName (n : GraphNode) : GoStr := (getProp n.properties (gs "name")).getD []

set_option linter.unusedVariables false in
/-- `GetAllAccessibleRepos`: the backend interaction (gRPC connection and
`Traverse` call) is the external collaborator, embedded as its outcome
`traverse`; the function then keeps exactly the output nodes whose `org`
and `name` properties are both present and non-empty, silently dropping
the rest. -/
def GetAllAccessibleRepos (email : GoStr)
    (traverse : Except GoStr (List GraphNode)) : Except GoStr (List Repository) :=
  match traverse with
  | .error e => .error e
  | .ok output =>
    .ok (output.foldl
      (fun acc node =>
        if nodeName node != [] && nodeOrg node != [] then
          acc ++ [⟨nodeName node, nodeOrg node⟩]
        else acc)
      [])

/-- The `Validator` struct of the access package. The Go
`map[string]struct{}` key set is embedded as a duplicate-free list of
keys in insertion order. -/
structure Validator where
  userEmail : GoStr
  accessibleRepos : List GoStr
  initialized : Bool
deriving DecidableEq

/-- `NewValidator`: uninitialized, with an empty access set. -/
def NewValidator (userEmail : GoStr) : Validator := ⟨userEmail, [], false⟩

/-- Insertion of a key into the embedded `map[string]struct{}`: a key
already present is not duplicated. -/
def setInsert (m : List GoStr) (k : GoStr) : List GoStr :=
  if m.contains k then m else m ++ [k]

/-- `Validator.fetchAccessibleRepositories`: formats each repository the
backend returned as `github.com/<org>/<repo>`, verbatim. -/
def Validator.fetchAccessibleRepositories (v : Validator)
    (traverse : Except GoStr (List GraphNode)) : Except GoStr (List GoStr) :=
  match GetAllAccessibleRepos v.userEmail traverse with
  | .error e => .error (gs "failed to fetch accessible repositories: " ++ e)
  | .ok repos => .ok (repos.map fun r => gs "github.com/" ++ r.org ++ gs "/" ++ r.repo)

/-- `Validator.Initialize`: a no-op when already initialized; otherwise it
fetches, and on success replaces the access set wholesale and marks the
validator initialized. The Go method mutates the receiver and returns an
error; the embedding returns the updated validator with the optional
error message. -/
def Validator.Initialize (v : Validator)
    (traverse : Except GoStr (List GraphNode)) : Validator × Option GoStr :=
  if v.initialized then (v, none)
  else
    match v.fetchAccessibleRepositories traverse with
    | .error e => (v, some (gs "failed to fetch accessible repositories: " ++ e))
    | .ok repos =>
      ({ v with accessibleRepos := repos.foldl setInsert [], initialized := true }, none)

/-- `Validator.IsRepositoryAccessible`: initialized check first, then
normalization, then a pure membership test. The Go method returns the
pair `(accessible bool, err error)`; an absent error is `none`. -/
def Validator.IsRepositoryAccessible (v : Validator) (repoURL : GoStr) :
    Bool × Option GoStr :=
  if !v.initialized then (false, some (gs "validator not initialized"))
  else
    match normalizeRepositoryURL repoURL with
    | .error e => (false, some (gs "failed to normalize repository URL: " ++ e))
    | .ok n => (v.accessibleRepos.contains n, none)

/-- `Validator.GetAccessibleRepositories`: a copy of the key set (Go's map
iteration order is arbitrary; the embedding reports insertion order). -/
def Validator.GetAccessibleRepositories (v : Validator) : List GoStr :=
  v.accessibleRepos

/-! ## Gated MCP tool handlers

Each `...WithValidation` handler is embedded as a program in a free monad
over the provider (GitHub client) calls it can make: parameter extraction
and the access gate are pure, and every `client.*` / `rawClient.*` call is
a `Prog.call` node whose continuation receives the provider's response.
The protocol layer (`RequiredParam`, `OptionalParam`,
`OptionalPaginationParams`, `getClient`, `getRawClient`) is the external
collaborator: the request carries the outcome of each extraction.
Dynamic data inside wrapped Go errors, `%q` quoting and JSON
serialization are approximated: an error carries its static message
prefix, and the marshaled JSON of a successful response is embedded as
that response's `body` field. -/

/-- One provider (GitHub client) call a gated handler can make. -/
inductive ProviderCall where
  | reposGet (owner repo : GoStr)
  | gitGetRef (owner repo ref : GoStr)
  | gitCreateRef (owner repo ref sha : GoStr)
  | reposGetContents (owner repo path ref : GoStr)
  | rawGetContent (owner repo path : GoStr)
  | reposGetCommit (owner repo sha : GoStr)
  | reposListCommits (owner repo sha author : GoStr)
  | reposListBranches (owner repo : GoStr)
deriving DecidableEq

/-- The parts of a provider response the handlers inspect. -/
structure ProviderResp where
  isErr : Bool
  errIs404 : Bool
  status : Nat
  sha : Option GoStr
  defaultBranch : GoStr
  contentType : GoStr
  body : GoStr
  bodyReadErr : Bool
deriving DecidableEq

/-- A handler computation: pure, or a provider call with a continuation. -/
inductive Prog (α : Type) where
  | pure (a : α)
  | call (c : ProviderCall) (k : ProviderResp → Prog α)

def Prog.bind {α β : Type} : Prog α → (α → Prog β) → Prog β
  | .pure a, f => f a
  | .call c k, f => .call c fun r => (k r).bind f

/-- Run a handler program against an oracle answering every provider
call, collecting the calls made in order. -/
def Prog.run {α : Type} (oracle : ProviderCall → ProviderResp) :
    Prog α → α × List ProviderCall
  | .pure a => (a, [])
  | .call c k =>
    let r := Prog.run oracle (k (oracle c))
    (r.1, c :: r.2)

/-- The result a handler returns: `mcp.NewToolResultError`,
`mcp.NewToolResultText`, `mcp.NewToolResultResource`,
`ghErrors.NewGitHubAPIErrorResponse`, or a plain Go error return. -/
inductive ToolResult where
  | errorResult (msg : GoStr)
  | textResult (text : GoStr)
  | resourceResult (msg uri content : GoStr)
  | apiErrorResult (msg : GoStr)
  | goError (msg : GoStr)
deriving DecidableEq

/-- A tool call request, embedded as the outcomes of the protocol layer's
parameter extractions together with client construction outcomes. An
`Except.error` is a failed `RequiredParam`/`OptionalParam` extraction; an
absent optional parameter is `Except.ok []`. -/
structure CallToolRequest where
  owner : Except GoStr GoStr
  repo : Except GoStr GoStr
  path : Except GoStr GoStr
  refParam : Except GoStr GoStr
  shaParam : Except GoStr GoStr
  branch : Except GoStr GoStr
  fromBranch : Except GoStr GoStr
  author : Except GoStr GoStr
  pagination : Except GoStr (Nat × Nat)
  getClientOk : Bool
  getRawClientOk : Bool

/-- `raw.ContentOpts`. -/
structure ContentOpts where
  ref : GoStr
  sha : GoStr
deriving DecidableEq

/-- `resolveGitReference`: resolves an optional ref/sha pair to concrete
content options, looking the ref up with the provider where needed. -/
def resolveGitReference (owner repo ref sha : GoStr) :
    Prog (Except GoStr ContentOpts) :=
  if sha != [] then .pure (.ok ⟨[], sha⟩)
  else
    let finalFetch : GoStr → Prog (Except GoStr ContentOpts) := fun r =>
      .call (.gitGetRef owner repo r) fun resp =>
        if resp.isErr then .pure (.error (gs "failed to get final reference"))
        else .pure (.ok ⟨r, resp.sha.getD []⟩)
    if ref == [] then
      .call (.reposGet owner repo) fun resp =>
        if resp.isErr then .pure (.error (gs "failed to get repository info"))
        else finalFetch (gs "refs/heads/" ++ resp.defaultBranch)
    else if hasPre ref (gs "refs/") then finalFetch ref
    else if hasPre ref (gs "heads/") || hasPre ref (gs "tags/") then
      finalFetch (gs "refs/" ++ ref)
    else
      .call (.gitGetRef owner repo (gs "refs/heads/" ++ ref)) fun resp =>
        if !resp.isErr then .pure (.ok ⟨gs "refs/heads/" ++ ref, resp.sha.getD []⟩)
        else if resp.errIs404 then
          .call (.gitGetRef owner repo (gs "refs/tags/" ++ ref)) fun resp2 =>
            if !resp2.isErr then .pure (.ok ⟨gs "refs/tags/" ++ ref, resp2.sha.getD []⟩)
            else if resp2.errIs404 then
              .pure (.error (gs "could not resolve ref " ++ ref ++ gs " as a branch or a tag"))
            else .pure (.error (gs "failed to get reference for tag " ++ ref))
        else .pure (.error (gs "failed to get reference for branch " ++ ref))

/-- The handler of `get_file_contents` (`GetFileContentsWithValidation`). -/
def GetFileContentsWithValidation (v : Validator) (req : CallToolRequest) :
    Prog ToolResult :=
  match req.owner with
  | .error e => .pure (.errorResult e)
  | .ok owner =>
  match req.repo with
  | .error e => .pure (.errorResult e)
  | .ok repo =>
  match v.IsRepositoryAccessible (gs "github.com/" ++ owner ++ gs "/" ++ repo) with
  | (_, some e) => .pure (.errorResult (gs "Failed to validate repository access: " ++ e))
  | (false, none) => .pure (.errorResult (gs "Access denied: Repository " ++ owner ++
      gs "/" ++ repo ++ gs " is not accessible to the current user"))
  | (true, none) =>
  match req.path with
  | .error e => .pure (.errorResult e)
  | .ok path =>
  match req.refParam with
  | .error e => .pure (.errorResult e)
  | .ok ref =>
  match req.shaParam with
  | .error e => .pure (.errorResult e)
  | .ok sha =>
  if !req.getClientOk then .pure (.errorResult (gs "failed to get GitHub client"))
  else
    (resolveGitReference owner repo ref sha).bind fun ropts =>
      match ropts with
      | .error e => .pure (.errorResult (gs "failed to resolve git reference: " ++ e))
      | .ok rawOpts =>
        let ref2 := if rawOpts.sha != [] then rawOpts.sha else ref
        let finalCall : Prog ToolResult :=
          .call (.reposGetContents owner repo path ref2) fun resp =>
            if resp.isErr then .pure (.apiErrorResult (gs "failed to get file contents"))
            else .pure (.textResult resp.body)
        let after : Prog ToolResult :=
          if hasSuf path (gs "/") then
            .call (.reposGetContents owner repo path ref2) fun resp =>
              if !resp.isErr && resp.status == 200 then .pure (.textResult resp.body)
              else finalCall
          else finalCall
        if path != [] && !hasSuf path (gs "/") then
          .call (.reposGetContents owner repo path ref) fun respContents =>
            if respContents.isErr then .pure (.apiErrorResult (gs "failed to get file SHA"))
            else
              match respContents.sha with
              | none => .pure (.errorResult (gs "file content SHA is nil"))
              | some fileSHA =>
                if !req.getRawClientOk then
                  .pure (.errorResult (gs "failed to get GitHub raw content client"))
                else .call (.rawGetContent owner repo path) fun resp =>
                  if resp.isErr then
                    .pure (.errorResult (gs "failed to get raw repository content"))
                  else if resp.status == 200 then
                    if resp.bodyReadErr then
                      .pure (.errorResult (gs "failed to read response body"))
                    else
                      let resourceURI :=
                        if sha != [] then
                          gs "repo://" ++ owner ++ gs "/" ++ repo ++ gs "/sha/" ++ sha ++
                            gs "/contents/" ++ path
                        else if ref != [] then
                          gs "repo://" ++ owner ++ gs "/" ++ repo ++ gs "/" ++ ref ++
                            gs "/contents/" ++ path
                        else
                          gs "repo://" ++ owner ++ gs "/" ++ repo ++ gs "/contents/" ++ path
                      if hasPre resp.contentType (gs "application") ||
                          hasPre resp.contentType (gs "text") then
                        if fileSHA != [] then
                          .pure (.resourceResult (gs "successfully downloaded text file (SHA: " ++
                            fileSHA ++ gs ")") resourceURI resp.body)
                        else
                          .pure (.resourceResult (gs "successfully downloaded text file")
                            resourceURI resp.body)
                      else
                        if fileSHA != [] then
                          .pure (.resourceResult (gs "successfully downloaded binary file (SHA: " ++
                            fileSHA ++ gs ")") resourceURI resp.body)
                        else
                          .pure (.resourceResult (gs "successfully downloaded binary file")
                            resourceURI resp.body)
                  else after
        else after

/-- The handler of `get_commit` (`GetCommitWithValidation`). -/
def GetCommitWithValidation (v : Validator) (req : CallToolRequest) :
    Prog ToolResult :=
  match req.owner with
  | .error e => .pure (.errorResult e)
  | .ok owner =>
  match req.repo with
  | .error e => .pure (.errorResult e)
  | .ok repo =>
  match v.IsRepositoryAccessible (gs "github.com/" ++ owner ++ gs "/" ++ repo) with
  | (_, some e) => .pure (.errorResult (gs "Failed to validate repository access: " ++ e))
  | (false, none) => .pure (.errorResult (gs "Access denied: Repository " ++ owner ++
      gs "/" ++ repo ++ gs " is not accessible to the current user"))
  | (true, none) =>
  match req.shaParam with
  | .error e => .pure (.errorResult e)
  | .ok sha =>
  match req.pagination with
  | .error e => .pure (.errorResult e)
  | .ok _ =>
  if !req.getClientOk then .pure (.goError (gs "failed to get GitHub client"))
  else
    .call (.reposGetCommit owner repo sha) fun resp =>
      if resp.isErr then .pure (.apiErrorResult (gs "failed to get commit: " ++ sha))
      else if resp.status != 200 then
        if resp.bodyReadErr then .pure (.goError (gs "failed to read response body"))
        else .pure (.errorResult (gs "failed to get commit: " ++ resp.body))
      else .pure (.textResult resp.body)

/-- The handler of `list_commits` (`ListCommitsWithValidation`). -/
def ListCommitsWithValidation (v : Validator) (req : CallToolRequest) :
    Prog ToolResult :=
  match req.owner with
  | .error e => .pure (.errorResult e)
  | .ok owner =>
  match req.repo with
  | .error e => .pure (.errorResult e)
  | .ok repo =>
  match v.IsRepositoryAccessible (gs "github.com/" ++ owner ++ gs "/" ++ repo) with
  | (_, some e) => .pure (.errorResult (gs "Failed to validate repository access: " ++ e))
  | (false, none) => .pure (.errorResult (gs "Access denied: Repository " ++ owner ++
      gs "/" ++ repo ++ gs " is not accessible to the current user"))
  | (true, none) =>
  match req.shaParam with
  | .error e => .pure (.errorResult e)
  | .ok sha =>
  match req.author with
  | .error e => .pure (.errorResult e)
  | .ok author =>
  match req.pagination with
  | .error e => .pure (.errorResult e)
  | .ok _ =>
  if !req.getClientOk then .pure (.goError (gs "failed to get GitHub client"))
  else
    .call (.reposListCommits owner repo sha author) fun resp =>
      if resp.isErr then .pure (.apiErrorResult (gs "failed to list commits"))
      else if resp.status != 200 then
        if resp.bodyReadErr then .pure (.goError (gs "failed to read response body"))
        else .pure (.errorResult (gs "failed to list commits: " ++ resp.body))
      else .pure (.textResult resp.body)

/-- The handler of `list_branches` (`ListBranchesWithValidation`). -/
def ListBranchesWithValidation (v : Validator) (req : CallToolRequest) :
    Prog ToolResult :=
  match req.owner with
  | .error e => .pure (.errorResult e)
  | .ok owner =>
  match req.repo with
  | .error e => .pure (.errorResult e)
  | .ok repo =>
  match v.IsRepositoryAccessible (gs "github.com/" ++ owner ++ gs "/" ++ repo) with
  | (_, some e) => .pure (.errorResult (gs "Failed to validate repository access: " ++ e))
  | (false, none) => .pure (.errorResult (gs "Access denied: Repository " ++ owner ++
      gs "/" ++ repo ++ gs " is not accessible to the current user"))
  | (true, none) =>
  match req.pagination with
  | .error e => .pure (.errorResult e)
  | .ok _ =>
  if !req.getClientOk then .pure (.goError (gs "failed to get GitHub client"))
  else
    .call (.reposListBranches owner repo) fun resp =>
      if resp.isErr then .pure (.apiErrorResult (gs "failed to list branches"))
      else if resp.status != 200 then
        if resp.bodyReadErr then .pure (.goError (gs "failed to read response body"))
        else .pure (.errorResult (gs "failed to list branches: " ++ resp.body))
      else .pure (.textResult resp.body)

/-- The handler of `create_branch` (`CreateBranchWithValidation`). -/
def CreateBranchWithValidation (v : Validator) (req : CallToolRequest) :
    Prog ToolResult :=
  match req.owner with
  | .error e => .pure (.errorResult e)
  | .ok owner =>
  match req.repo with
  | .error e => .pure (.errorResult e)
  | .ok repo =>
  match v.IsRepositoryAccessible (gs "github.com/" ++ owner ++ gs "/" ++ repo) with
  | (_, some e) => .pure (.errorResult (gs "Failed to validate repository access: " ++ e))
  | (false, none) => .pure (.errorResult (gs "Access denied: Repository " ++ owner ++
      gs "/" ++ repo ++ gs " is not accessible to the current user"))
  | (true, none) =>
  match req.branch with
  | .error e => .pure (.errorResult e)
  | .ok branch =>
  match req.fromBranch with
  | .error e => .pure (.errorResult e)
  | .ok fromBranch =>
  if !req.getClientOk then .pure (.goError (gs "failed to get GitHub client"))
  else
    let rest : GoStr → Prog ToolResult := fun fb =>
      .call (.gitGetRef owner repo (gs "refs/heads/" ++ fb)) fun resp =>
        if resp.isErr then .pure (.apiErrorResult (gs "failed to get reference"))
        else
          .call (.gitCreateRef owner repo (gs "refs/heads/" ++ branch)
              (resp.sha.getD [])) fun resp2 =>
            if resp2.isErr then .pure (.apiErrorResult (gs "failed to create branch"))
            else .pure (.textResult resp2.body)
    if fromBranch == [] then
      .call (.reposGet owner repo) fun resp =>
        if resp.isErr then .pure (.apiErrorResult (gs "failed to get repository"))
        else rest resp.defaultBranch
    else rest fromBranch

/-- The five gated operation handlers. -/
def gatedHandlers : List (Validator → CallToolRequest → Prog ToolResult) :=
  [GetFileContentsWithValidation, GetCommitWithValidation,
   ListCommitsWithValidation, ListBranchesWithValidation,
   CreateBranchWithValidation]

/-! ## Operation sequences over one validator

For the state invariant claims: the operations the access package exposes
on a validator, and their effect on its state (the reads
`IsRepositoryAccessible` and `GetAccessibleRepositories` do not mutate). -/

/-- One call into the validator's public surface. -/
inductive Op where
  | init (traverse : Except GoStr (List GraphNode))
  | isAccessible (ref : GoStr)
  | getRepos

/-- The state effect of one operation. -/
def applyOp (v : Validator) : Op → Validator
  | .init t => (v.Initialize t).1
  | .isAccessible _ => v
  | .getRepos => v

/-- The validator state after a sequence of operations. -/
def runOps (v : Validator) (ops : List Op) : Validator := ops.foldl applyOp v

example : normalizeRepositoryURL (gs "owner/repo") = .ok (gs "github.com/owner/repo") := by decide
example : normalizeRepositoryURL (gs "https://github.com/owner/repo.git") = .ok (gs "github.com/owner/repo") := by decide
example : normalizeRepositoryURL (gs "github.com/owner/repo/extra")
    = .error (gs "unsupported repository URL format: github.com/owner/repo/extra") := by decide
example : normalizeRepositoryURL (gs "https://GitHub.COM/owner/repo")
    = .error (gs "unsupported repository URL format: https://GitHub.COM/owner/repo") := by decide
example : normalizeRepositoryURL (gs "github.com/OWNER/repo") = .ok (gs "github.com/OWNER/repo") := by decide
example : normalizeRepositoryURL (gs "https://invalid-url")
    = .error (gs "unsupported repository URL format: https://invalid-url") := by decide
example : normalizeRepositoryURL (gs "") = .error (gs "repository URL cannot be empty") := by decide
example : normalizeRepositoryURL (gs "owner") = .error (gs "unsupported repository URL format: owner") := by decide

/-! ## Helper lemmas -/

/-- A validator that is not initialized answers every membership query
with `false` and the not-initialized error. -/
lemma isAccessible_of_not_init (v : Validator) (ref : GoStr)
    (h : v.initialized = false) :
    v.IsRepositoryAccessible ref = (false, some (gs "validator not initialized")) := by
  simp [Validator.IsRepositoryAccessible, h]

/-- A path that does not split into exactly two segments is not a valid
repo path. -/
lemma isValidRepoPath_of_len_ne_two (path : GoStr)
    (h : (splitChar '/' path).length ≠ 2) : isValidRepoPath path = false := by
  unfold isValidRepoPath
  split
  · rfl
  · rcases hsp : splitChar '/' path with _ | ⟨a, _ | ⟨b, _ | ⟨c, t⟩⟩⟩ <;>
      first
        | rfl
        | (rw [hsp] at h; simp at h)

/-- Membership in a fold of `setInsert` comes from the seed or from the
inserted list. -/
lemma mem_foldl_setInsert (l : List GoStr) (acc : List GoStr) (k : GoStr)
    (h : k ∈ l.foldl setInsert acc) : k ∈ acc ∨ k ∈ l := by
  induction l generalizing acc with
  | nil => exact .inl h
  | cons x xs ih =>
    rcases ih (setInsert acc x) h with hx | hx
    · unfold setInsert at hx
      split at hx
      · exact .inl hx
      · rcases List.mem_append.mp hx with hy | hy
        · exact .inl hy
        · exact .inr (List.mem_singleton.mp hy ▸ List.mem_cons_self x xs)
    · exact .inr (List.mem_cons_of_mem x hx)

/-- Every repository the fetch-layer fold keeps comes verbatim from a
node whose `org` and `name` properties are both non-empty. -/
lemma mem_accessible_fold (nodes : List GraphNode) (acc : List Repository)
    (r : Repository)
    (h : r ∈ nodes.foldl
      (fun acc node =>
        if nodeName node != [] && nodeOrg node != [] then
          acc ++ [⟨nodeName node, nodeOrg node⟩]
        else acc) acc) :
    r ∈ acc ∨ ∃ n ∈ nodes, nodeName n ≠ [] ∧ nodeOrg n ≠ [] ∧
      r = ⟨nodeName n, nodeOrg n⟩ := by
  induction nodes generalizing acc with
  | nil => exact .inl h
  | cons x xs ih =>
    rcases ih _ h with hx | ⟨n, hn, h1, h2, h3⟩
    · dsimp only at hx
      split at hx
      · rcases List.mem_append.mp hx with hy | hy
        · exact .inl hy
        · rename_i hcond
          simp only [bne_iff_ne, ne_eq, Bool.and_eq_true, decide_eq_true_eq] at hcond
          exact .inr ⟨x, List.mem_cons_self x xs, by
            simpa using hcond.1, by simpa using hcond.2, List.mem_singleton.mp hy⟩
      · exact .inl hx
    · exact .inr ⟨n, List.mem_cons_of_mem x hn, h1, h2, h3⟩

/-- `Initialize` against a failed fetch leaves the validator untouched. -/
lemma initialize_error_fst (v : Validator) (e : GoStr) :
    (v.Initialize (.error e)).1 = v := by
  by_cases h : v.initialized = true <;>
    simp [Validator.Initialize, Validator.fetchAccessibleRepositories,
      GetAllAccessibleRepos, h]

/-- `Initialize` on an already-initialized validator changes nothing. -/
lemma initialize_init_fst (v : Validator) (t : Except GoStr (List GraphNode))
    (h : v.initialized = true) : (v.Initialize t).1 = v := by
  simp [Validator.Initialize, h]

/-- After a first successful `Initialize`, every committed key is the
verbatim `github.com/<org>/<name>` format of some returned node whose two
properties are non-empty. -/
lemma initialize_ok_not_init_mem (v : Validator) (nodes : List GraphNode)
    (k : GoStr) (h : v.initialized = false)
    (hk : k ∈ (v.Initialize (.ok nodes)).1.accessibleRepos) :
    ∃ n ∈ nodes, nodeName n ≠ [] ∧ nodeOrg n ≠ [] ∧
      k = gs "github.com/" ++ nodeOrg n ++ gs "/" ++ nodeName n := by
  have h1 : (v.Initialize (.ok nodes)).1.accessibleRepos
      = ((nodes.foldl
            (fun (acc : List Repository) node =>
              if nodeName node != [] && nodeOrg node != [] then
                acc ++ [⟨nodeName node, nodeOrg node⟩]
              else acc) []).map
          (fun r => gs "github.com/" ++ r.org ++ gs "/" ++ r.repo)).foldl setInsert [] := by
    simp [Validator.Initialize, Validator.fetchAccessibleRepositories,
      GetAllAccessibleRepos, h]
  rw [h1] at hk
  rcases mem_foldl_setInsert _ _ _ hk with h0 | h2
  · exact absurd h0 (List.not_mem_nil k)
  · rcases List.mem_map.mp h2 with ⟨r, hr, rfl⟩
    rcases mem_accessible_fold nodes [] r hr with h0 | ⟨n, hn, hname, horg, rfl⟩
    · exact absurd h0 (List.not_mem_nil r)
    · exact ⟨n, hn, hname, horg, rfl⟩

/-! ## Claim theorems -/

/-- C2 (refuted by the code; the code also contradicts its own test):
`normalizeRepositoryURL` preserves the letter case of owner and repo, so
`github.com/OWNER/repo` keeps its upper-case owner — the repo's
`TestNormalizeRepositoryURL` expects `github.com/owner/repo` here — and
the case-variant pair `OWNER/REPO` / `owner/repo` gets two distinct
canonical keys instead of one. -/
theorem normalize_not_lowercased :
    normalizeRepositoryURL (gs "github.com/OWNER/repo")
      = .ok (gs "github.com/OWNER/repo") ∧
    normalizeRepositoryURL (gs "OWNER/REPO") = .ok (gs "github.com/OWNER/REPO") ∧
    normalizeRepositoryURL (gs "owner/repo") = .ok (gs "github.com/owner/repo") ∧
    normalizeRepositoryURL (gs "OWNER/REPO") ≠ normalizeRepositoryURL (gs "owner/repo") :=
  ⟨by decide, by decide, by decide, by decide⟩

/-- C4: every membership query on a validator that is not initialized
returns `false` together with the not-initialized error — never a silent
`false` — for every reference, malformed or not, since the state check
precedes normalization. -/
theorem isAccessible_not_ready_errors (v : Validator) (ref : GoStr)
    (h : v.initialized = false) :
    v.IsRepositoryAccessible ref = (false, some (gs "validator not initialized")) :=
  isAccessible_of_not_init v ref h

theorem isAccessible_not_ready_errors_witness :
    (NewValidator (gs "user@example.com")).initialized = false ∧
    (NewValidator (gs "user@example.com")).IsRepositoryAccessible (gs "not a url")
      = (false, some (gs "validator not initialized")) :=
  ⟨rfl, isAccessible_not_ready_errors _ _ rfl⟩

/-- C5 counterexample: a reference with a third path segment after
owner/repo is rejected with an unsupported-format error, not truncated
to the first two segments as the claim states. -/
theorem normalize_extra_segments_rejected_cex :
    normalizeRepositoryURL (gs "github.com/owner/repo/extra")
      = .error (gs "unsupported repository URL format: github.com/owner/repo/extra") := by
  decide

/-- C5 amended: normalization is strict, not tolerant, in every surface
form: a `github.com/`-prefixed reference whose remainder (after trimming
one `.git` suffix) splits into more than two segments, a scheme-carrying
URL whose path after the host does so (whatever the host), and a bare
reference with more than one slash, all fail with the unsupported-format
error naming the reference — none is truncated to its first two
segments. -/
theorem normalize_rejects_extra_segments :
    (∀ ref : GoStr, hasPre ref (gs "http://") = false →
       hasPre ref (gs "https://") = false →
       hasPre ref (gs "github.com/") = true →
       2 < (splitChar '/'
           (trimSuf (trimPre ref (gs "github.com/")) (gs ".git"))).length →
       normalizeRepositoryURL ref
         = .error (gs "unsupported repository URL format: " ++ ref)) ∧
    (∀ ref : GoStr,
       (hasPre ref (gs "http://") || hasPre ref (gs "https://")) = true →
       2 < (splitChar '/' (trimSuf (trimPre
           (urlHostPath (if hasPre ref (gs "https://") then ref.drop 8
             else ref.drop 7)).2 (gs "/")) (gs ".git"))).length →
       normalizeRepositoryURL ref
         = .error (gs "unsupported repository URL format: " ++ ref)) ∧
    (∀ ref : GoStr, hasPre ref (gs "http://") = false →
       hasPre ref (gs "https://") = false →
       hasPre ref (gs "github.com/") = false →
       1 < countChar '/' ref →
       normalizeRepositoryURL ref
         = .error (gs "unsupported repository URL format: " ++ ref)) := by
  refine ⟨fun ref h1 h2 h3 h4 => ?_, fun ref hs h4 => ?_,
    fun ref h1 h2 h3 hc => ?_⟩
  · have hne : ref ≠ [] := by rintro rfl; exact absurd h3 (by decide)
    have hbe : (ref == ([] : GoStr)) = false := beq_eq_false_iff_ne.mpr hne
    have hvalid := isValidRepoPath_of_len_ne_two
        (trimSuf (trimPre ref (gs "github.com/")) (gs ".git")) (ne_of_gt h4)
    simp [normalizeRepositoryURL, hbe, h1, h2, h3, hvalid]
  · have hne : ref ≠ [] := by rintro rfl; exact absurd hs (by decide)
    have hbe : (ref == ([] : GoStr)) = false := beq_eq_false_iff_ne.mpr hne
    have hvalid := isValidRepoPath_of_len_ne_two _ (ne_of_gt h4)
    simp [normalizeRepositoryURL, hbe, hs, hvalid]
  · have hne : ref ≠ [] := by
      rintro rfl
      simp [countChar] at hc
    have hbe : (ref == ([] : GoStr)) = false := beq_eq_false_iff_ne.mpr hne
    have hcount : (countChar '/' ref == 1) = false :=
      beq_eq_false_iff_ne.mpr (by omega)
    simp [normalizeRepositoryURL, hbe, h1, h2, h3, hcount]

theorem normalize_rejects_extra_segments_witness :
    normalizeRepositoryURL (gs "github.com/owner/repo/extra")
      = .error (gs "unsupported repository URL format: " ++
          gs "github.com/owner/repo/extra") ∧
    normalizeRepositoryURL (gs "https://github.com/owner/repo/extra")
      = .error (gs "unsupported repository URL format: " ++
          gs "https://github.com/owner/repo/extra") ∧
    normalizeRepositoryURL (gs "owner/repo/extra")
      = .error (gs "unsupported repository URL format: " ++ gs "owner/repo/extra") :=
  ⟨normalize_rejects_extra_segments.1 (gs "github.com/owner/repo/extra")
      (by decide) (by decide) (by decide) (by decide),
   normalize_rejects_extra_segments.2.1 (gs "https://github.com/owner/repo/extra")
      (by decide) (by decide),
   normalize_rejects_extra_segments.2.2 (gs "owner/repo/extra")
      (by decide) (by decide) (by decide) (by decide)⟩

/-- C6 (refuted by the code; the code also contradicts its own test): the
host comparison in the scheme branch is byte equality, so the upper-cased
host in `https://GitHub.COM/owner/repo` is rejected with an
unsupported-format error, while the case-sensitivity-free twin
`https://github.com/owner/repo` is accepted. -/
theorem normalize_host_compare_case_sensitive :
    normalizeRepositoryURL (gs "https://GitHub.COM/owner/repo")
      = .error (gs "unsupported repository URL format: https://GitHub.COM/owner/repo") ∧
    normalizeRepositoryURL (gs "https://github.com/owner/repo")
      = .ok (gs "github.com/owner/repo") :=
  ⟨by decide, by decide⟩

/-- C7: when the collaborator fetch fails, `Initialize` returns the
(twice-wrapped) fetch error, the validator — its access set included — is
unchanged and still not initialized, and every subsequent membership
query returns the not-initialized error. -/
theorem initialize_failure_all_or_nothing (v : Validator) (e : GoStr)
    (h : v.initialized = false) :
    v.Initialize (.error e)
      = (v, some (gs "failed to fetch accessible repositories: " ++
          (gs "failed to fetch accessible repositories: " ++ e))) ∧
    ∀ ref, ((v.Initialize (.error e)).1).IsRepositoryAccessible ref
        = (false, some (gs "validator not initialized")) := by
  have h1 : v.Initialize (.error e)
      = (v, some (gs "failed to fetch accessible repositories: " ++
          (gs "failed to fetch accessible repositories: " ++ e))) := by
    simp [Validator.Initialize, Validator.fetchAccessibleRepositories,
      GetAllAccessibleRepos, h]
  refine ⟨h1, fun ref => ?_⟩
  rw [h1]
  exact isAccessible_of_not_init v ref h

theorem initialize_failure_all_or_nothing_witness :
    (NewValidator (gs "u@example.com")).initialized = false ∧
    (NewValidator (gs "u@example.com")).Initialize (.error (gs "transport down"))
      = (NewValidator (gs "u@example.com"),
         some (gs "failed to fetch accessible repositories: " ++
           (gs "failed to fetch accessible repositories: " ++ gs "transport down"))) :=
  ⟨rfl, (initialize_failure_all_or_nothing _ _ rfl).1⟩

/-- C8: `Initialize` on an already-initialized validator returns success
immediately with the validator unchanged, and its outcome is independent
of the collaborator — no second fetch can be observed. -/
theorem initialize_ready_noop (v : Validator) (t : Except GoStr (List GraphNode))
    (h : v.initialized = true) :
    v.Initialize t = (v, none) ∧ ∀ t', v.Initialize t = v.Initialize t' := by
  have h1 : ∀ s, v.Initialize s = (v, none) := fun s => by
    simp [Validator.Initialize, h]
  exact ⟨h1 t, fun t' => by rw [h1 t, h1 t']⟩

theorem initialize_ready_noop_witness :
    (Validator.mk (gs "u@example.com") [gs "github.com/user/repo1"] true).initialized
      = true ∧
    (Validator.mk (gs "u@example.com") [gs "github.com/user/repo1"] true).Initialize
        (.ok [])
      = (Validator.mk (gs "u@example.com") [gs "github.com/user/repo1"] true, none) :=
  ⟨rfl, (initialize_ready_noop _ (.ok []) rfl).1⟩

/-- C9: a successful `Initialize` against a backend returning zero
repositories reaches the initialized state with an empty access set, and
afterwards every reference that normalizes successfully is reported not
accessible, with no error. -/
theorem initialize_empty_backend_ready (v : Validator)
    (h : v.initialized = false) :
    (v.Initialize (.ok [])).2 = none ∧
    (v.Initialize (.ok [])).1.initialized = true ∧
    (v.Initialize (.ok [])).1.accessibleRepos = [] ∧
    ∀ ref n, normalizeRepositoryURL ref = .ok n →
      (v.Initialize (.ok [])).1.IsRepositoryAccessible ref = (false, none) := by
  have h1 : v.Initialize (.ok [])
      = ({v with accessibleRepos := [], initialized := true}, none) := by
    simp [Validator.Initialize, Validator.fetchAccessibleRepositories,
      GetAllAccessibleRepos, h]
  refine ⟨by rw [h1], by rw [h1], by rw [h1], fun ref n hn => ?_⟩
  rw [h1]
  simp [Validator.IsRepositoryAccessible, hn, List.contains]

theorem initialize_empty_backend_ready_witness :
    (NewValidator (gs "u@example.com")).initialized = false ∧
    normalizeRepositoryURL (gs "owner/repo") = .ok (gs "github.com/owner/repo") ∧
    ((NewValidator (gs "u@example.com")).Initialize (.ok [])).1.IsRepositoryAccessible
        (gs "owner/repo") = (false, none) :=
  ⟨rfl, by decide,
    (initialize_empty_backend_ready _ rfl).2.2.2 (gs "owner/repo")
      (gs "github.com/owner/repo") (by decide)⟩

/-- C3 counterexample: `Initialize` commits backend references verbatim,
without normalizing them: a formatted reference whose own normalization
fails (`github.com/a/b/c`, from an org containing a slash) is committed
rather than skipped, and a reference that is not in normal form
(`github.com/org/r.git`) is committed unnormalized. -/
theorem initialize_skips_normalization_cex :
    ((NewValidator (gs "u@z.com")).Initialize
        (.ok [GraphNode.mk [(gs "org", gs "a/b"), (gs "name", gs "c")],
              GraphNode.mk [(gs "org", gs "org"), (gs "name", gs "r.git")]])).1.accessibleRepos
      = [gs "github.com/a/b/c", gs "github.com/org/r.git"] ∧
    normalizeRepositoryURL (gs "github.com/a/b/c")
      = .error (gs "unsupported repository URL format: github.com/a/b/c") ∧
    normalizeRepositoryURL (gs "github.com/org/r.git") = .ok (gs "github.com/org/r") ∧
    (gs "github.com/org/r.git" : GoStr) ≠ gs "github.com/org/r" :=
  ⟨by decide, by decide, by decide, by decide⟩

/-- C3 amended: `Initialize` against a successful fetch always succeeds
and commits exactly the verbatim `github.com/<org>/<name>` format of the
returned nodes whose two properties are non-empty; no normalization is
applied and nothing is skipped or counted at this layer. -/
theorem initialize_commits_verbatim (v : Validator) (nodes : List GraphNode)
    (h : v.initialized = false) :
    (v.Initialize (.ok nodes)).2 = none ∧
    (v.Initialize (.ok nodes)).1.initialized = true ∧
    ∀ k ∈ (v.Initialize (.ok nodes)).1.accessibleRepos,
      ∃ n ∈ nodes, nodeName n ≠ [] ∧ nodeOrg n ≠ [] ∧
        k = gs "github.com/" ++ nodeOrg n ++ gs "/" ++ nodeName n := by
  refine ⟨?_, ?_, fun k hk => initialize_ok_not_init_mem v nodes k h hk⟩ <;>
    simp [Validator.Initialize, Validator.fetchAccessibleRepositories,
      GetAllAccessibleRepos, h]

theorem initialize_commits_verbatim_witness :
    (NewValidator (gs "u@z.com")).initialized = false ∧
    ((NewValidator (gs "u@z.com")).Initialize
        (.ok [GraphNode.mk [(gs "name", gs "r")],
              GraphNode.mk [(gs "org", gs "o"), (gs "name", gs "r")]])).2 = none :=
  ⟨rfl, (initialize_commits_verbatim _ _ rfl).1⟩

/-- C10: starting from a fresh validator, after any sequence of
operations every key in the access set has the form
`github.com/<org>/<repo>` with both components non-empty, because the
fetch layer keeps only backend nodes whose `org` and `name` properties
are non-empty — and it drops the incomplete ones silently, never turning
them into an error. -/
theorem accessSet_keys_wellformed (email : GoStr) (ops : List Op) :
    (∀ k ∈ (runOps (NewValidator email) ops).accessibleRepos,
        ∃ org repo, org ≠ [] ∧ repo ≠ [] ∧
          k = gs "github.com/" ++ org ++ gs "/" ++ repo) ∧
    ∀ e nodes, ∃ repos, GetAllAccessibleRepos e (.ok nodes) = .ok repos := by
  constructor
  · have inv : ∀ (ops : List Op) (v : Validator),
        (∀ k ∈ v.accessibleRepos, ∃ org repo, org ≠ [] ∧ repo ≠ [] ∧
            k = gs "github.com/" ++ org ++ gs "/" ++ repo) →
        ∀ k ∈ (runOps v ops).accessibleRepos,
          ∃ org repo, org ≠ [] ∧ repo ≠ [] ∧
            k = gs "github.com/" ++ org ++ gs "/" ++ repo := by
      intro ops
      induction ops with
      | nil => exact fun v hv => hv
      | cons op rest ih =>
        intro v hv
        have hstep : ∀ k ∈ (applyOp v op).accessibleRepos,
            ∃ org repo, org ≠ [] ∧ repo ≠ [] ∧
              k = gs "github.com/" ++ org ++ gs "/" ++ repo := by
          cases op with
          | isAccessible r => exact hv
          | getRepos => exact hv
          | init t =>
            by_cases hinit : v.initialized = true
            · simpa [applyOp, initialize_init_fst v t hinit] using hv
            · cases t with
              | error e =>
                simpa [applyOp, initialize_error_fst v e] using hv
              | ok nodes =>
                intro k hk
                have h0 : v.initialized = false := by
                  simpa using hinit
                rcases initialize_ok_not_init_mem v nodes k h0 hk with
                  ⟨n, _, hname, horg, rfl⟩
                exact ⟨nodeOrg n, nodeName n, horg, hname, rfl⟩
        exact ih (applyOp v op) hstep
    exact inv ops (NewValidator email) (by intro k hk; exact absurd hk (List.not_mem_nil k))
  · exact fun e nodes => ⟨_, rfl⟩

theorem accessSet_keys_wellformed_witness :
    ((runOps (NewValidator (gs "u@z.com"))
        [Op.init (.ok [GraphNode.mk [(gs "name", gs "incomplete")],
                       GraphNode.mk [(gs "org", gs "o"), (gs "name", gs "r")]]),
         Op.isAccessible (gs "o/r")]).accessibleRepos
      = [gs "github.com/o/r"]) ∧
    ∃ org repo, org ≠ [] ∧ repo ≠ [] ∧
      gs "github.com/o/r" = gs "github.com/" ++ org ++ gs "/" ++ repo :=
  ⟨by decide,
    (accessSet_keys_wellformed (gs "u@z.com")
        [Op.init (.ok [GraphNode.mk [(gs "name", gs "incomplete")],
                       GraphNode.mk [(gs "org", gs "o"), (gs "name", gs "r")]]),
         Op.isAccessible (gs "o/r")]).1
      (gs "github.com/o/r") (by decide)⟩

/-- C1: every gated handler consults the validator strictly before any
provider call: when the membership check answers `false` (with no error)
the handler is the pure access-denied result — so no provider call occurs
under any oracle — and a run of a gated handler can only have made a
provider call if owner and repo were extracted successfully and the
check answered `true` with no error. -/
theorem gate_checked_before_provider_calls
    (H : Validator → CallToolRequest → Prog ToolResult)
    (hH : H ∈ gatedHandlers) (v : Validator) (req : CallToolRequest) :
    (∀ owner repo, req.owner = .ok owner → req.repo = .ok repo →
        v.IsRepositoryAccessible (gs "github.com/" ++ owner ++ gs "/" ++ repo)
          = (false, none) →
        H v req = .pure (.errorResult (gs "Access denied: Repository " ++ owner ++
          gs "/" ++ repo ++ gs " is not accessible to the current user"))) ∧
    ∀ oracle, (Prog.run oracle (H v req)).2 ≠ [] →
      ∃ owner repo, req.owner = .ok owner ∧ req.repo = .ok repo ∧
        v.IsRepositoryAccessible (gs "github.com/" ++ owner ++ gs "/" ++ repo)
          = (true, none) := by
  simp only [gatedHandlers, List.mem_cons, List.not_mem_nil, or_false] at hH
  rcases hH with rfl | rfl | rfl | rfl | rfl <;>
  refine ⟨fun owner repo ho hr hgate => ?_, fun oracle htrace => ?_⟩ <;>
  first
    | simp only [GetFileContentsWithValidation, GetCommitWithValidation,
        ListCommitsWithValidation, ListBranchesWithValidation,
        CreateBranchWithValidation, ho, hr, hgate]
    | (rcases ho : req.owner with e | owner
       · exact absurd (by
           simp only [GetFileContentsWithValidation, GetCommitWithValidation,
             ListCommitsWithValidation, ListBranchesWithValidation,
             CreateBranchWithValidation, ho, Prog.run]) htrace
       · rcases hr : req.repo with e | repo
         · exact absurd (by
             simp only [GetFileContentsWithValidation, GetCommitWithValidation,
               ListCommitsWithValidation, ListBranchesWithValidation,
               CreateBranchWithValidation, ho, hr, Prog.run]) htrace
         · rcases hgate : v.IsRepositoryAccessible
               (gs "github.com/" ++ owner ++ gs "/" ++ repo) with ⟨b, err⟩
           rcases err with _ | e
           · rcases b with _ | _
             · exact absurd (by
                 simp only [GetFileContentsWithValidation, GetCommitWithValidation,
                   ListCommitsWithValidation, ListBranchesWithValidation,
                   CreateBranchWithValidation, ho, hr, hgate, Prog.run]) htrace
             · exact ⟨owner, repo, rfl, rfl, hgate⟩
           · exact absurd (by
               simp only [GetFileContentsWithValidation, GetCommitWithValidation,
                 ListCommitsWithValidation, ListBranchesWithValidation,
                 CreateBranchWithValidation, ho, hr, hgate, Prog.run]) htrace)

theorem gate_checked_before_provider_calls_witness :
    (Validator.mk (gs "u@example.com") [] true).IsRepositoryAccessible
        (gs "github.com/" ++ gs "octo" ++ gs "/" ++ gs "hello") = (false, none) ∧
    GetCommitWithValidation (Validator.mk (gs "u@example.com") [] true)
        (CallToolRequest.mk (.ok (gs "octo")) (.ok (gs "hello")) (.ok (gs "/"))
          (.ok []) (.ok []) (.ok []) (.ok []) (.ok []) (.ok (0, 0)) true true)
      = .pure (.errorResult (gs "Access denied: Repository " ++ gs "octo" ++
          gs "/" ++ gs "hello" ++ gs " is not accessible to the current user")) :=
  ⟨by decide,
    (gate_checked_before_provider_calls GetCommitWithValidation
        (by simp [gatedHandlers])
        (Validator.mk (gs "u@example.com") [] true)
        (CallToolRequest.mk (.ok (gs "octo")) (.ok (gs "hello")) (.ok (gs "/"))
          (.ok []) (.ok []) (.ok []) (.ok []) (.ok []) (.ok (0, 0)) true true)).1
      (gs "octo") (gs "hello") rfl rfl (by decide)⟩

end GhMcp
